import Mathlib

/-!
Verification development for `mergehelper.py` (MergeHelper v1.5).

The script batch-merges multi-track BIN/CUE disc images.  We give a shallow
embedding of its core: the CUE-sheet parser and directory scanner
(`scan_directories`), the per-unit staging / merge / rollback pipeline
(`process_games` and `merge_bin_files`), and the top-level control flow
(dependency pre-check, removal-mode prompt, exit behaviour).

Modelling conventions:
  * a directory is a finite map from file name to file content, represented
    as an association list `Dir`; `shutil.move(src, dstdir)` moves a file
    into a directory and raises when the source is missing or when the
    destination file already exists (`shutil.Error: Destination path ...
    already exists`); `os.remove` deletes an entry; the merge subprocess's
    own file writes overwrite;
  * the backup subdirectory `orig` of a unit is `Option Dir`
    (`none` = the directory does not exist);
  * the external `binmerge` subprocess is a black box described by its exit
    code and the files it writes into the unit's directory (`MergeExec`);
  * Python exceptions are modelled with `Except` / `Option`; an exception
    escaping to the interpreter makes the process exit with status 1;
  * paths use POSIX separators; text lines are modelled without their
    trailing newline character.
-/

namespace MergeHelper

/-- A directory: an association list of (file name, file content). -/
abbrev Dir := List (String × String)

/-- Look up a file in a directory. -/
def dlook : Dir → String → Option String
  | [], _ => none
  | (g, c) :: rest, f => if g = f then some c else dlook rest f

/-- Remove a file (all entries with that name) from a directory;
models `os.remove` (for a present file) and the overwrite part of a move. -/
def eraseKey : Dir → String → Dir
  | [], _ => []
  | (g, c) :: rest, f => if g = f then eraseKey rest f else (g, c) :: eraseKey rest f

/-- Write (create or overwrite) a file in a directory. -/
def setKey (d : Dir) (f c : String) : Dir := (f, c) :: eraseKey d f

/-- Write a batch of files into a directory, in order (later writes win);
models the files a subprocess leaves in a directory. -/
def writeAll (w : Dir) (out : Dir) : Dir :=
  out.foldl (fun d p => setKey d p.1 p.2) w

/-- POSIX `os.path.join` for a directory and a relative name. -/
def joinPath (a b : String) : String := a ++ "/" ++ b

/-- Helper for `baseName`: keep the characters after the last separator. -/
def lastComponent : List Char → List Char → List Char
  | acc, [] => acc
  | acc, c :: rest =>
    if c = '/' then lastComponent [] rest else lastComponent (acc ++ [c]) rest

/-- `os.path.basename`. -/
def baseName (p : String) : String := String.mk (lastComponent [] p.toList)

/-- Index of the last `'.'` in a character list, if any. -/
def lastDotIdx : List Char → Option Nat
  | [] => none
  | c :: rest =>
    match lastDotIdx rest with
    | some i => some (i + 1)
    | none => if c = '.' then some 0 else none

/-- `os.path.splitext(f)[0]` for a plain file name: drop the extension after
the last dot, except when every character before that dot is itself a dot
(Python treats leading dots as part of the name, so `".cue"` has no
extension). -/
def splitextBase (f : String) : String :=
  match lastDotIdx f.toList with
  | none => f
  | some i =>
    if (f.toList.take i).any (fun c => c ≠ '.') then String.mk (f.toList.take i) else f

/-- The `Game` record built by `scan_directories`
(name, directory, cue_file, bin_count, bin_files). -/
structure Game where
  name : String
  directory : String
  cueFile : String
  binCount : Nat
  binFiles : List String
deriving DecidableEq

/-- The files `process_games` stages for a unit:
`game.bin_files + [os.path.basename(game.cue_file)]`. -/
def stagedFiles (g : Game) : List String := g.binFiles ++ [baseName g.cueFile]

/-! ### CUE-sheet parsing (`scan_directories`, lines 370-379)

The source reads the CUE sheet line by line and runs
`line.strip().upper().startswith("FILE")`, then `line.split('"')[1]`
guarded by an `except IndexError` that logs the malformed line and
continues. -/

/-- Python `str.strip()`: drop whitespace from both ends. -/
def pyStrip (cs : List Char) : List Char :=
  ((cs.dropWhile Char.isWhitespace).reverse.dropWhile Char.isWhitespace).reverse

/-- `line.strip().upper().startswith("FILE")`. -/
def isFileLine (line : String) : Bool :=
  ((pyStrip line.toList).map Char.toUpper).take 4 == ['F', 'I', 'L', 'E']

/-- Python `str.split(sep)` for a one-character separator.  The result is
never empty; a separator starts a new chunk, any other character is
prepended to the first chunk of the remainder. -/
def splitOnChar (sep : Char) : List Char → List (List Char)
  | [] => [[]]
  | c :: rest =>
    let r := splitOnChar sep rest
    if c = sep then [] :: r else (c :: r.headD []) :: r.tail

/-- `line.split('"')[1]`, with the `IndexError` case as `none`
(raised exactly when the line contains no double quote). -/
def pyExtractQuoted (line : String) : Option String :=
  ((splitOnChar '"' line.toList)[1]?).map String.mk

/-- The parsing loop of `scan_directories` over the lines of one CUE sheet:
first component the extracted track file names in source order, second
component the malformed `FILE` lines that were reported and skipped. -/
def cueParseAux : List String → List String × List String
  | [] => ([], [])
  | line :: rest =>
    let r := cueParseAux rest
    if isFileLine line then
      match pyExtractQuoted line with
      | some b => (b :: r.1, r.2)
      | none => (r.1, line :: r.2)
    else r

/-- Python file iteration: split the content into lines
(modelled without the trailing newline of each line). -/
def pyLines (s : String) : List String := (splitOnChar '\n' s.toList).map String.mk

/-! Spec-side parser, for the refinement comparison of claim C7. -/

/-- Modelled from the spec: "scan lines case-insensitively for entries
beginning with the token `FILE`" — the first whitespace-delimited token of
the line is `FILE`. -/
def specTokenFILE (line : String) : Bool :=
  ((line.toList.map Char.toUpper).dropWhile Char.isWhitespace).takeWhile
      (fun c => !(Char.isWhitespace c)) == ['F', 'I', 'L', 'E']

/-- Modelled from the spec: "extract the filename as the first quoted
substring on that line" — the text between the first double quote and a
required closing double quote; `none` when the line has no complete quoted
substring. -/
def specFirstQuoted (line : String) : Option String :=
  match line.toList.dropWhile (fun c => c ≠ '"') with
  | [] => none
  | _ :: rest =>
    if '"' ∈ rest then some (String.mk (rest.takeWhile (fun c => c ≠ '"'))) else none

/-- Modelled from the spec: the CueIndex contract — the filenames of all
well-formed `FILE` lines, in source order, malformed lines skipped. -/
def cueParseSpec (ls : List String) : List String :=
  ls.filterMap (fun l => if specTokenFILE l then specFirstQuoted l else none)

/-! ### Scanner (`scan_directories`, lines 345-405)

`os.walk` is the OS primitive; the source consumes its output, a sequence
of `(root, dirs, files)` triples.  We model that output as a list of
`DirEntry` and the scan as a pure fold over it that also records the trace
of filesystem operations it performs. -/

/-- Diagnostics emitted while scanning (the `fail` / `info` / `detail`
log calls of `scan_directories`). -/
inductive ScanEvent where
  | malformed (line : String)
  | missingBins (bins : List String)
  | identified (name : String)
  | noMerge (name : String)
  | noBinsFound (name : String)
deriving DecidableEq

/-- Filesystem operations the script can perform. -/
inductive FsOp where
  | listDir (p : String)
  | openRead (p : String)
  | statExists (p : String)
  | makeDirs (p : String)
  | moveFile (src dst : String)
  | removeFile (p : String)
  | removeDir (p : String)
deriving DecidableEq

/-- Whether a filesystem operation mutates the filesystem. -/
def FsOp.isMutation : FsOp → Bool
  | .listDir _ => false
  | .openRead _ => false
  | .statExists _ => false
  | .makeDirs _ => true
  | .moveFile _ _ => true
  | .removeFile _ => true
  | .removeDir _ => true

/-- One `(root, files)` entry of the `os.walk` output
(subdirectory names are not used by the scan). -/
structure DirEntry where
  path : String
  files : Dir
deriving DecidableEq

/-- `file.lower().endswith(".cue")`. -/
def isCueName (f : String) : Bool :=
  ['.', 'c', 'u', 'e'].isSuffixOf (f.toList.map Char.toLower)

/-- Processing of one CUE file inside the walk loop (lines 366-403):
parse the sheet, check every referenced track exists in the same directory,
derive the name from the CUE filename without extension, and classify by
track count (`>1` emit, `=1` no-op, `=0` error). -/
def scanCue (dirPath : String) (dirFiles : List String) (cue : String)
    (lines : List String) : Option Game × List ScanEvent :=
  let bins := (cueParseAux lines).1
  let evs := (cueParseAux lines).2.map ScanEvent.malformed
  let missing := bins.filter (fun b => !(dirFiles.contains b))
  if missing.isEmpty then
    let gameName := splitextBase cue
    if bins.length > 1 then
      (some { name := gameName, directory := dirPath, cueFile := joinPath dirPath cue,
              binCount := bins.length, binFiles := bins },
       evs ++ [ScanEvent.identified gameName])
    else if bins.length = 1 then (none, evs ++ [ScanEvent.noMerge gameName])
    else (none, evs ++ [ScanEvent.noBinsFound gameName])
  else (none, evs ++ [ScanEvent.missingBins missing])

/-- The filesystem reads performed for one CUE file: open the sheet, then
`os.path.exists` once per referenced track. -/
def scanCueTrace (dirPath : String) (cue : String) (bins : List String) : List FsOp :=
  FsOp.openRead (joinPath dirPath cue) :: bins.map (fun b => FsOp.statExists (joinPath dirPath b))

/-- Loop over the CUE files of one directory. -/
def scanCues (dirPath : String) (names : List String) (files : Dir) :
    List String → List Game × List ScanEvent × List FsOp
  | [] => ([], [], [])
  | c :: rest =>
    let lines := pyLines ((dlook files c).getD "")
    let r := scanCue dirPath names c lines
    let tr := scanCueTrace dirPath c (cueParseAux lines).1
    let rr := scanCues dirPath names files rest
    (r.1.toList ++ rr.1, r.2 ++ rr.2.1, tr ++ rr.2.2)

/-- One iteration of the `os.walk` loop: list the directory, filter the
`.cue` files, process each. -/
def scanEntry (e : DirEntry) : List Game × List ScanEvent × List FsOp :=
  let names := e.files.map Prod.fst
  let r := scanCues e.path names e.files (names.filter isCueName)
  (r.1, r.2.1, FsOp.listDir e.path :: r.2.2)

/-- `scan_directories`: fold the walk output into the list of games to
merge, the diagnostics, and the trace of filesystem operations. -/
def scanDirectories : List DirEntry → List Game × List ScanEvent × List FsOp
  | [] => ([], [], [])
  | e :: rest =>
    let r := scanEntry e
    let rr := scanDirectories rest
    (r.1 ++ rr.1, r.2.1 ++ rr.2.1, r.2.2 ++ rr.2.2)

/-! ### Staging, merge and rollback (`process_games` lines 407-438 and
`merge_bin_files` lines 258-343)

The state of one unit is its working directory plus its `orig` backup
subdirectory.  The external merge subprocess is a black box `MergeExec`:
its exit code and the files it writes into the working directory. -/

/-- Filesystem state of one unit: the working directory `game.directory`
and its backup subdirectory `orig` (absent or present). -/
structure UnitFS where
  work : Dir
  orig : Option Dir
deriving DecidableEq

/-- Black-box behaviour of one `binmerge` invocation: exit code and the
files it wrote into the output directory (the unit's working directory). -/
structure MergeExec where
  rc : Nat
  out : Dir
deriving DecidableEq

/-- `shutil.move(game.directory/f, orig_dir)`: raises when the source file
is missing (`FileNotFoundError`) or when `orig_dir/f` already exists
(`shutil.Error`), otherwise moves the entry. -/
def moveWorkToOrig (s : UnitFS) (f : String) : Option UnitFS :=
  match dlook s.work f, dlook ((s.orig).getD []) f with
  | none, _ => none
  | some _, some _ => none
  | some c, none => some ⟨eraseKey s.work f, some (setKey ((s.orig).getD []) f c)⟩

/-- The staging loop of `process_games` (lines 428-430): move each of the
unit's files into `orig`, stopping with an exception at the first failing
move; the error value is the state at the moment the exception is raised. -/
def stageFiles : List String → UnitFS → Except UnitFS UnitFS
  | [], s => Except.ok s
  | f :: fs, s =>
    match moveWorkToOrig s f with
    | none => Except.error s
    | some s' => stageFiles fs s'

/-- The restoration loop of the rollback (lines 334-338): move every staged
file back from `orig` into the working directory, continuing past
individual move failures.  `shutil.move(orig_dir/f, game.directory)`
fails when the source is missing or when `game.directory/f` already
exists; a failed move is logged and leaves both directories untouched. -/
def restoreFiles : List String → UnitFS → UnitFS
  | [], s => s
  | f :: fs, s =>
    let o := (s.orig).getD []
    match dlook o f, dlook s.work f with
    | none, _ => restoreFiles fs s
    | some _, some _ => restoreFiles fs s
    | some c, none => restoreFiles fs ⟨setKey s.work f c, some (eraseKey o f)⟩

/-- `if not os.listdir(orig_dir): os.rmdir(orig_dir)`. -/
def rmdirIfEmpty (s : UnitFS) : UnitFS :=
  match s.orig with
  | some [] => { s with orig := none }
  | _ => s

/-- The deletion loop of the commit (lines 305-312): `os.remove` each
staged file from `orig`, under an exception handler that logs the first
failure and abandons the rest of the block.  `fails` is the environment
oracle for OS-level deletion failures (the code catches any exception);
`os.remove` of a missing file also raises.  Returns the resulting backup
directory and whether the whole block completed. -/
def deleteStaged (fails : String → Bool) : List String → Dir → Dir × Bool
  | [], o => (o, true)
  | f :: fs, o =>
    if fails f then (o, false)
    else
      match dlook o f with
      | none => (o, false)
      | some _ => deleteStaged fails fs (eraseKey o f)

/-- `merge_bin_files(game, REMOVEMODE)` for a staged unit.  The subprocess
runs (writing `exec.out` into the working directory); a non-zero return
code raises, landing in the `except` block: partial `<name>.bin` /
`<name>.cue` outputs are removed, the staged files are moved back, and
`orig` is removed if empty.  On return code zero, `REMOVEMODE == "1"`
deletes the staged originals (failures logged, not escalated) and removes
`orig` if it is then empty; any other mode leaves the backup intact.
The boolean records whether the unit completed successfully. -/
def mergeBinFiles (g : Game) (mode : String) (fails : String → Bool)
    (exec : MergeExec) (s : UnitFS) : UnitFS × Bool :=
  let w1 := writeAll s.work exec.out
  if exec.rc ≠ 0 then
    let w2 := eraseKey (eraseKey w1 (g.name ++ ".bin")) (g.name ++ ".cue")
    let s3 := restoreFiles (stagedFiles g) ⟨w2, s.orig⟩
    (rmdirIfEmpty s3, false)
  else
    if mode = "1" then
      let del := deleteStaged fails (stagedFiles g) ((s.orig).getD [])
      let s2 : UnitFS := ⟨w1, some del.1⟩
      ((if del.2 then rmdirIfEmpty s2 else s2), true)
    else (⟨w1, s.orig⟩, true)

/-- Terminal outcome of one unit in `process_games`. -/
inductive UnitOutcome where
  | skippedConflict
  | stagingFailed
  | merged (success : Bool)
deriving DecidableEq

/-- The body of the `process_games` loop for one unit (lines 419-437):
`os.makedirs(orig_dir, exist_ok=True)`, skip when any of the unit's own
file names already exists in `orig`, otherwise stage and merge.  An
exception from the staging loop is caught, logged and the unit skipped
(the `except` clause performs no rollback). -/
def processUnit (g : Game) (mode : String) (fails : String → Bool)
    (exec : MergeExec) (s : UnitFS) : UnitFS × UnitOutcome :=
  let s0 : UnitFS := ⟨s.work, some ((s.orig).getD [])⟩
  let conflicts := (stagedFiles g).filter (fun f => (dlook ((s0.orig).getD []) f).isSome)
  if conflicts.isEmpty then
    match stageFiles (stagedFiles g) s0 with
    | Except.error sErr => (sErr, UnitOutcome.stagingFailed)
    | Except.ok s1 =>
      let r := mergeBinFiles g mode fails exec s1
      (r.1, UnitOutcome.merged r.2)
  else (s0, UnitOutcome.skippedConflict)

/-! ### Batch loop and top-level flow (lines 244-256, 407-438, 443-495) -/

/-- Python exceptions that can escape the modelled code. -/
inductive PyErr where
  | zeroDivisionError
deriving DecidableEq

/-- `display_progress(current, total)`: computes `current / total`, which
raises `ZeroDivisionError` exactly when `total == 0`. -/
def displayProgress (current total : Nat) : Except PyErr Unit :=
  if total = 0 then Except.error PyErr.zeroDivisionError
  else
    let _ := current
    Except.ok ()

/-- The `for index, game in enumerate(games, start=1)` loop of
`process_games`; each iteration processes one unit (with its own directory
state and its own merge invocation) and runs `display_progress` in the
`finally` clause. -/
def processLoop (mode : String) (fails : String → Bool) (execOf : Game → MergeExec)
    (stateOf : Game → UnitFS) (total : Nat) :
    List Game → Nat → Except PyErr (List (UnitFS × UnitOutcome))
  | [], _ => Except.ok []
  | g :: gs, idx =>
    let r := processUnit g mode fails (execOf g) (stateOf g)
    match displayProgress (idx + 1) total with
    | Except.error e => Except.error e
    | Except.ok _ =>
      match processLoop mode fails execOf stateOf total gs (idx + 1) with
      | Except.error e => Except.error e
      | Except.ok rs => Except.ok (r :: rs)

/-- `process_games(games, REMOVEMODE)`: the initial
`display_progress(0, total_games)` call, then the loop. -/
def processGames (mode : String) (fails : String → Bool) (execOf : Game → MergeExec)
    (stateOf : Game → UnitFS) (games : List Game) :
    Except PyErr (List (UnitFS × UnitOutcome)) :=
  match displayProgress 0 games.length with
  | Except.error e => Except.error e
  | Except.ok _ => processLoop mode fails execOf stateOf games.length games 0

/-- `check_dependencies` (lines 218-242): exits 1 when the Python major
version is below 3, or when the binmerge script is absent and its download
fails; `none` means the pre-check passed. -/
def checkDependencies (pyMajor : Nat) (binmergeAvailable downloadOk : Bool) : Option Nat :=
  if pyMajor < 3 then some 1
  else if !binmergeAvailable && !downloadOk then some 1
  else none

/-- The `REMOVEMODE == "2"` prompt (lines 464-485): `y` selects deletion,
`n` keeps the default, `q` and any other answer exit with status 1.
`answer` is the user's lower-cased response. -/
def promptResolve (removemode answer : String) : Except Nat String :=
  if removemode = "2" then
    if answer = "y" then Except.ok "1"
    else if answer = "n" then Except.ok "2"
    else Except.error 1
  else Except.ok removemode

/-- The module-level main flow (lines 443-495): dependency pre-check,
removal-mode prompt, scan, then `process_games`.  An exception escaping
`process_games` reaches the interpreter, which exits with status 1;
otherwise the script runs to the end and exits 0. -/
def mainRun (pyMajor : Nat) (binmergeAvailable downloadOk : Bool)
    (removemode answer : String) (fails : String → Bool)
    (execOf : Game → MergeExec) (stateOf : Game → UnitFS)
    (walk : List DirEntry) : Nat :=
  match checkDependencies pyMajor binmergeAvailable downloadOk with
  | some c => c
  | none =>
    match promptResolve removemode answer with
    | Except.error c => c
    | Except.ok mode =>
      match processGames mode fails execOf stateOf (scanDirectories walk).1 with
      | Except.error _ => 1
      | Except.ok _ => 0

/-! ### Concrete inputs used by witnesses and counterexamples -/

/-- A two-track unit, named after its CUE sheet. -/
def gA : Game := ⟨"g", "/r/G", "/r/G/g.cue", 2, ["a.bin", "b.bin"]⟩

/-- Deletion-failure oracle for runs where no OS-level failure occurs. -/
def noFail : String → Bool := fun _ => false

/-- A merge invocation that exits 0 and writes the merged pair. -/
def execOk : MergeExec := ⟨0, [("g.bin", "M"), ("g.cue", "MC")]⟩

/-- A merge invocation that exits 1 having written nothing. -/
def execFail : MergeExec := ⟨1, []⟩

/-- Working directory holding exactly the unit's files, no backup yet. -/
def sClean : UnitFS := ⟨[("a.bin", "A"), ("b.bin", "B"), ("g.cue", "C")], none⟩

/-- Backup directory already holds a file named like one of the unit's. -/
def sConflict : UnitFS :=
  ⟨[("a.bin", "A"), ("b.bin", "B"), ("g.cue", "C")], some [("a.bin", "OLD")]⟩

/-- Backup directory exists and is non-empty, but holds no name that
clashes with the unit's files. -/
def sNonConflict : UnitFS :=
  ⟨[("a.bin", "A"), ("b.bin", "B"), ("g.cue", "C")], some [("zzz.txt", "j")]⟩

/-- Working directory with an extra unreferenced file `g.bin` that
collides with the merge output name. -/
def sExtraBin : UnitFS :=
  ⟨[("a.bin", "A"), ("b.bin", "B"), ("g.cue", "C"), ("g.bin", "X")], none⟩

/-- Working directory missing the track `b.bin`, so staging fails
mid-sequence. -/
def sPartial : UnitFS := ⟨[("a.bin", "A"), ("g.cue", "C")], none⟩

/-- The backup directory contents after `gA` is staged from `sClean`. -/
def origStaged : Dir := [("g.cue", "C"), ("b.bin", "B"), ("a.bin", "A")]

/-- Unit state after `gA` is staged from `sClean`. -/
def sStaged : UnitFS := ⟨[], some origStaged⟩

/-- CUE sheet lines with two well-formed FILE entries. -/
def cueLinesTwo : List String := ["FILE \"t1.bin\" BINARY", "FILE \"t2.bin\" BINARY"]

/-- Directory listing holding the CUE sheet and both referenced tracks. -/
def dirFilesTwo : List String := ["track01.cue", "t1.bin", "t2.bin"]

/-- Lines exhibiting the two divergences of the parser from the spec's
wording: a line whose first token is `FILES` (prefix match) and a `FILE`
line with an unterminated quote. -/
def cexLines : List String := ["FILES \"x.bin\" BINARY", "FILE \"abc"]

/-- A one-directory walk with one CUE sheet and its two tracks. -/
def walkEx : List DirEntry :=
  [⟨"/r", [("x.cue", "FILE \"a.bin\"\nFILE \"b.bin\""), ("a.bin", "1"), ("b.bin", "2")]⟩]

/-! ## Lemmas about the directory-map primitives -/

theorem dlook_eraseKey (d : Dir) (f x : String) :
    dlook (eraseKey d f) x = if x = f then none else dlook d x := by
  induction d with
  | nil => simp [eraseKey, dlook]
  | cons p rest ih =>
    obtain ⟨g, c⟩ := p
    simp only [eraseKey, dlook]
    by_cases hgf : g = f
    · rw [if_pos hgf, ih]
      by_cases hxf : x = f
      · simp [hxf]
      · have hgx : ¬ g = x := fun h => hxf (hgf ▸ h ▸ rfl)
        simp [hxf, hgx]
    · rw [if_neg hgf]
      by_cases hgx : g = x
      · have hxf : ¬ x = f := fun h => hgf (h ▸ hgx)
        simp [dlook, hgx, hxf]
      · simp [dlook, hgx, ih]

theorem dlook_setKey (d : Dir) (f c x : String) :
    dlook (setKey d f c) x = if x = f then some c else dlook d x := by
  simp only [setKey, dlook]
  by_cases hxf : x = f
  · simp [hxf]
  · have hfx : ¬ f = x := fun h => hxf h.symm
    simp [hxf, hfx, dlook_eraseKey]

theorem dlook_writeAll_not_key (out : Dir) (w : Dir) (x : String)
    (h : ∀ p ∈ out, p.1 ≠ x) : dlook (writeAll w out) x = dlook w x := by
  induction out generalizing w with
  | nil => rfl
  | cons p rest ih =>
    have hp : p.1 ≠ x := h p (by simp)
    have hrest : ∀ q ∈ rest, q.1 ≠ x := fun q hq => h q (by simp [hq])
    calc dlook (writeAll (setKey w p.1 p.2) rest) x
        = dlook (setKey w p.1 p.2) x := ih (setKey w p.1 p.2) hrest
      _ = dlook w x := by
          rw [dlook_setKey]
          have hxp : ¬ x = p.1 := fun he => hp he.symm
          simp [hxp]

/-! ## Lemmas about the character-level split (Python `str.split`) -/

theorem splitOnChar_ne_nil (sep : Char) (cs : List Char) : splitOnChar sep cs ≠ [] := by
  cases cs with
  | nil => simp [splitOnChar]
  | cons c rest =>
    simp only [splitOnChar]
    by_cases hc : c = sep <;> simp [hc]

theorem splitOnChar_head (sep : Char) (cs : List Char) :
    (splitOnChar sep cs).head? = some (cs.takeWhile (fun c => c ≠ sep)) := by
  induction cs with
  | nil => simp [splitOnChar]
  | cons c rest ih =>
    simp only [splitOnChar]
    cases h : splitOnChar sep rest with
    | nil => exact absurd h (splitOnChar_ne_nil sep rest)
    | cons hd tl =>
      rw [h] at ih
      simp only [List.head?_cons, Option.some.injEq] at ih
      by_cases hc : c = sep
      · rw [if_pos hc]
        simp [List.takeWhile_cons, hc]
      · rw [if_neg hc]
        simp [List.takeWhile_cons, hc, ih]

theorem splitOnChar_getOne (sep : Char) (cs : List Char) :
    (splitOnChar sep cs)[1]? =
      if sep ∈ cs then
        some (((cs.dropWhile (fun c => c ≠ sep)).tail).takeWhile (fun c => c ≠ sep))
      else none := by
  induction cs with
  | nil => simp [splitOnChar]
  | cons c rest ih =>
    simp only [splitOnChar]
    cases h : splitOnChar sep rest with
    | nil => exact absurd h (splitOnChar_ne_nil sep rest)
    | cons hd tl =>
      by_cases hc : c = sep
      · subst hc
        have hh := splitOnChar_head c rest
        rw [h] at hh
        simp only [List.head?_cons, Option.some.injEq] at hh
        rw [if_pos rfl]
        simp [List.dropWhile_cons, hh]
      · have hne : ¬ sep = c := fun he => hc he.symm
        have hmem : (sep ∈ c :: rest) ↔ (sep ∈ rest) := by
          simp [List.mem_cons, hne]
        rw [h] at ih
        rw [if_neg hc]
        simp only [List.headD_cons, List.tail_cons]
        have hidx : ((c :: hd) :: tl)[1]? = (hd :: tl)[1]? := rfl
        rw [hidx, ih]
        simp [hmem, List.dropWhile_cons, hc]

/-! ## Characterization of the CUE parser -/

theorem pyExtractQuoted_eq (l : String) :
    pyExtractQuoted l =
      if '"' ∈ l.toList then
        some (String.mk (((l.toList.dropWhile (fun c => c ≠ '"')).tail).takeWhile
          (fun c => c ≠ '"')))
      else none := by
  unfold pyExtractQuoted
  rw [splitOnChar_getOne]
  by_cases h : '"' ∈ l.toList <;> simp [h]

theorem cueParseAux_eq (ls : List String) :
    (cueParseAux ls).1
        = ls.filterMap (fun l => if isFileLine l then pyExtractQuoted l else none)
    ∧ (cueParseAux ls).2
        = ls.filter (fun l => isFileLine l && (pyExtractQuoted l).isNone) := by
  induction ls with
  | nil => exact ⟨rfl, rfl⟩
  | cons l rest ih =>
    by_cases hf : isFileLine l
    · cases hq : pyExtractQuoted l with
      | some b =>
        exact ⟨by simp [cueParseAux, hf, hq, List.filterMap_cons, ih.1],
               by simp [cueParseAux, hf, hq, List.filter_cons, ih.2]⟩
      | none =>
        exact ⟨by simp [cueParseAux, hf, hq, List.filterMap_cons, ih.1],
               by simp [cueParseAux, hf, hq, List.filter_cons, ih.2]⟩
    · exact ⟨by simp [cueParseAux, hf, List.filterMap_cons, ih.1],
             by simp [cueParseAux, hf, List.filter_cons, ih.2]⟩

/-! ## Characterization of staging, restoration and deletion -/

theorem stageFiles_ok_char (L : List String) (w o : Dir) (s1 : UnitFS)
    (hok : stageFiles L ⟨w, some o⟩ = Except.ok s1) :
    (∀ x, dlook s1.work x = if x ∈ L then none else dlook w x)
    ∧ (∀ x, dlook ((s1.orig).getD []) x = if x ∈ L then dlook w x else dlook o x)
    ∧ (∃ o', s1.orig = some o')
    ∧ (∀ f ∈ L, (dlook w f).isSome = true)
    ∧ L.Nodup := by
  induction L generalizing w o with
  | nil =>
    simp only [stageFiles, Except.ok.injEq] at hok
    subst hok
    exact ⟨by simp, by simp, ⟨o, rfl⟩, by simp, List.nodup_nil⟩
  | cons f fs ih =>
    simp only [stageFiles, moveWorkToOrig, Option.getD_some] at hok
    cases hw : dlook w f with
    | none =>
      rw [hw] at hok
      simp at hok
    | some c =>
      rw [hw] at hok
      have ho : dlook o f = none := by
        cases ho2 : dlook o f with
        | none => rfl
        | some c2 =>
          rw [ho2] at hok
          simp at hok
      rw [ho] at hok
      have hok2 : stageFiles fs ⟨eraseKey w f, some (setKey o f c)⟩ = Except.ok s1 := hok
      obtain ⟨cw, co, cex, cp, cnd⟩ := ih (eraseKey w f) (setKey o f c) hok2
      have hfnot : f ∉ fs := by
        intro hmem
        have hcp := cp f hmem
        rw [dlook_eraseKey] at hcp
        simp at hcp
      refine ⟨?_, ?_, cex, ?_, List.nodup_cons.mpr ⟨hfnot, cnd⟩⟩
      · intro x
        rw [cw x]
        by_cases hxfs : x ∈ fs
        · simp [hxfs, List.mem_cons]
        · rw [dlook_eraseKey]
          by_cases hxf : x = f
          · simp [hxf, hxfs]
          · simp [hxf, hxfs, List.mem_cons]
      · intro x
        rw [co x]
        by_cases hxfs : x ∈ fs
        · have hxf : x ≠ f := fun he => hfnot (he ▸ hxfs)
          rw [dlook_eraseKey]
          simp [hxfs, hxf, List.mem_cons]
        · rw [dlook_setKey]
          by_cases hxf : x = f
          · simp [hxf, hxfs, hw, hfnot]
          · simp [hxf, hxfs, List.mem_cons]
      · intro f' hf'
        rcases List.mem_cons.mp hf' with he | hm
        · subst he
          simp [hw]
        · have hne : f' ≠ f := fun heq => hfnot (heq ▸ hm)
          have hcp := cp f' hm
          rw [dlook_eraseKey] at hcp
          simpa [hne] using hcp

theorem restoreFiles_char (L : List String) (w o : Dir)
    (hnd : L.Nodup) (hp : ∀ f ∈ L, (dlook o f).isSome = true)
    (hw : ∀ f ∈ L, dlook w f = none) :
    (∀ x, dlook (restoreFiles L ⟨w, some o⟩).work x
        = if x ∈ L then dlook o x else dlook w x)
    ∧ ∃ o', (restoreFiles L ⟨w, some o⟩).orig = some o' := by
  induction L generalizing w o with
  | nil => exact ⟨by simp [restoreFiles], ⟨o, rfl⟩⟩
  | cons f fs ih =>
    have hf := hp f (List.mem_cons_self f fs)
    have hwf : dlook w f = none := hw f (List.mem_cons_self f fs)
    cases hc : dlook o f with
    | none =>
      rw [hc] at hf
      simp at hf
    | some c =>
      have hstep : restoreFiles (f :: fs) ⟨w, some o⟩
          = restoreFiles fs ⟨setKey w f c, some (eraseKey o f)⟩ := by
        simp [restoreFiles, hc, hwf]
      rw [hstep]
      have hfnot : f ∉ fs := (List.nodup_cons.mp hnd).1
      have hnd' : fs.Nodup := (List.nodup_cons.mp hnd).2
      have hp' : ∀ f' ∈ fs, (dlook (eraseKey o f) f').isSome = true := by
        intro f' hm
        have hne : f' ≠ f := fun heq => hfnot (heq ▸ hm)
        rw [dlook_eraseKey]
        simpa [hne] using hp f' (List.mem_cons_of_mem f hm)
      have hw' : ∀ f' ∈ fs, dlook (setKey w f c) f' = none := by
        intro f' hm
        have hne : f' ≠ f := fun heq => hfnot (heq ▸ hm)
        rw [dlook_setKey]
        simp [hne, hw f' (List.mem_cons_of_mem f hm)]
      obtain ⟨cw, cex⟩ := ih (setKey w f c) (eraseKey o f) hnd' hp' hw'
      refine ⟨?_, cex⟩
      intro x
      rw [cw x]
      by_cases hxfs : x ∈ fs
      · have hne : x ≠ f := fun heq => hfnot (heq ▸ hxfs)
        rw [dlook_eraseKey]
        simp [hxfs, hne, List.mem_cons]
      · rw [dlook_setKey]
        by_cases hxf : x = f
        · simp [hxf, hxfs, hc, hfnot]
        · simp [hxf, hxfs, List.mem_cons]

theorem deleteStaged_preserve_none (fails : String → Bool) (L : List String)
    (o : Dir) (x : String) (h : dlook o x = none) :
    dlook (deleteStaged fails L o).1 x = none := by
  induction L generalizing o with
  | nil => exact h
  | cons f fs ih =>
    simp only [deleteStaged]
    by_cases hfl : fails f
    · simp [hfl, h]
    · cases hc : dlook o f with
      | none => simp [hfl, h]
      | some c =>
        simp only [hfl, if_false, Bool.false_eq_true]
        apply ih
        rw [dlook_eraseKey]
        simp [h]

theorem deleteStaged_complete (fails : String → Bool) (L : List String) (o : Dir)
    (h : (deleteStaged fails L o).2 = true) :
    ∀ f ∈ L, dlook (deleteStaged fails L o).1 f = none := by
  induction L generalizing o with
  | nil => simp
  | cons f fs ih =>
    by_cases hfl : fails f
    · simp [deleteStaged, hfl] at h
    · cases hc : dlook o f with
      | none => simp [deleteStaged, hfl, hc] at h
      | some c =>
        have hstep : deleteStaged fails (f :: fs) o = deleteStaged fails fs (eraseKey o f) := by
          simp [deleteStaged, hfl, hc]
        rw [hstep] at h ⊢
        intro f' hf'
        rcases List.mem_cons.mp hf' with he | hm
        · subst he
          apply deleteStaged_preserve_none
          rw [dlook_eraseKey]
          simp
        · exact ih (eraseKey o f) h f' hm

theorem rmdirIfEmpty_work (s : UnitFS) : (rmdirIfEmpty s).work = s.work := by
  obtain ⟨w, o⟩ := s
  cases o with
  | none => rfl
  | some d =>
    cases d with
    | nil => rfl
    | cons p rest => rfl

theorem rmdirIfEmpty_orig (w : Dir) (o : Dir) :
    (rmdirIfEmpty ⟨w, some o⟩).orig = if o = [] then none else some o := by
  cases o with
  | nil => rfl
  | cons p rest => rfl

theorem conflicts_isEmpty_of_none (L : List String) (o : Dir)
    (h : ∀ f ∈ L, dlook o f = none) :
    (L.filter (fun f => (dlook o f).isSome)).isEmpty = true := by
  have hnil : L.filter (fun f => (dlook o f).isSome) = [] := by
    rw [List.filter_eq_nil_iff]
    intro a ha
    simp [h a ha]
  rw [hnil]
  rfl

theorem conflicts_isEmpty_false_of_mem (L : List String) (o : Dir) (f : String)
    (hf : f ∈ L) (hs : (dlook o f).isSome = true) :
    (L.filter (fun f => (dlook o f).isSome)).isEmpty = false := by
  have hmem : f ∈ L.filter (fun f => (dlook o f).isSome) := List.mem_filter.mpr ⟨hf, hs⟩
  cases hfil : L.filter (fun f => (dlook o f).isSome) with
  | nil =>
    rw [hfil] at hmem
    simp at hmem
  | cons a as => rfl

/-! ## Characterization of `processUnit` and `mergeBinFiles` -/

theorem processUnit_eq_of_conflictFree (g : Game) (mode : String)
    (fails : String → Bool) (exec : MergeExec) (s : UnitFS)
    (hconf : ∀ f ∈ stagedFiles g, dlook ((s.orig).getD []) f = none) :
    processUnit g mode fails exec s =
      match stageFiles (stagedFiles g) ⟨s.work, some ((s.orig).getD [])⟩ with
      | Except.error sErr => (sErr, UnitOutcome.stagingFailed)
      | Except.ok s1 =>
        ((mergeBinFiles g mode fails exec s1).1,
         UnitOutcome.merged (mergeBinFiles g mode fails exec s1).2) := by
  have h := conflicts_isEmpty_of_none (stagedFiles g) ((s.orig).getD []) hconf
  simp only [processUnit, Option.getD_some, h, if_true]

theorem processUnit_stagingError (g : Game) (mode : String) (fails : String → Bool)
    (exec : MergeExec) (s : UnitFS) (sErr : UnitFS)
    (hconf : ∀ f ∈ stagedFiles g, dlook ((s.orig).getD []) f = none)
    (herr : stageFiles (stagedFiles g) ⟨s.work, some ((s.orig).getD [])⟩
        = Except.error sErr) :
    processUnit g mode fails exec s = (sErr, UnitOutcome.stagingFailed) := by
  rw [processUnit_eq_of_conflictFree g mode fails exec s hconf, herr]

theorem processUnit_staged (g : Game) (mode : String) (fails : String → Bool)
    (exec : MergeExec) (s : UnitFS) (s1 : UnitFS)
    (hconf : ∀ f ∈ stagedFiles g, dlook ((s.orig).getD []) f = none)
    (hok : stageFiles (stagedFiles g) ⟨s.work, some ((s.orig).getD [])⟩
        = Except.ok s1) :
    processUnit g mode fails exec s =
      ((mergeBinFiles g mode fails exec s1).1,
       UnitOutcome.merged (mergeBinFiles g mode fails exec s1).2) := by
  rw [processUnit_eq_of_conflictFree g mode fails exec s hconf, hok]

theorem mergeBinFiles_fail (g : Game) (mode : String) (fails : String → Bool)
    (exec : MergeExec) (w' o' : Dir)
    (hnd : (stagedFiles g).Nodup)
    (hp : ∀ f ∈ stagedFiles g, (dlook o' f).isSome = true)
    (hwn : ∀ f ∈ stagedFiles g, dlook w' f = none)
    (hout : ∀ p ∈ exec.out, p.1 = g.name ++ ".bin" ∨ p.1 = g.name ++ ".cue")
    (hrc : exec.rc ≠ 0) :
    (mergeBinFiles g mode fails exec ⟨w', some o'⟩).2 = false
    ∧ ∀ x, dlook (mergeBinFiles g mode fails exec ⟨w', some o'⟩).1.work x =
        if x ∈ stagedFiles g then dlook o' x
        else if x = g.name ++ ".cue" then none
        else if x = g.name ++ ".bin" then none
        else dlook (writeAll w' exec.out) x := by
  have hw2 : ∀ f ∈ stagedFiles g,
      dlook (eraseKey (eraseKey (writeAll w' exec.out) (g.name ++ ".bin"))
        (g.name ++ ".cue")) f = none := by
    intro f hm
    rw [dlook_eraseKey]
    by_cases hfc : f = g.name ++ ".cue"
    · simp [hfc]
    · rw [if_neg hfc, dlook_eraseKey]
      by_cases hfb : f = g.name ++ ".bin"
      · simp [hfb]
      · rw [if_neg hfb, dlook_writeAll_not_key]
        · exact hwn f hm
        · intro p hpmem
          rcases hout p hpmem with h1 | h1
          · rw [h1]
            exact fun he => hfb he.symm
          · rw [h1]
            exact fun he => hfc he.symm
  simp only [mergeBinFiles, if_pos hrc]
  constructor
  · trivial
  · intro x
    rw [rmdirIfEmpty_work]
    obtain ⟨cw, -⟩ := restoreFiles_char (stagedFiles g)
      (eraseKey (eraseKey (writeAll w' exec.out) (g.name ++ ".bin")) (g.name ++ ".cue"))
      o' hnd hp hw2
    rw [cw x]
    by_cases hxL : x ∈ stagedFiles g
    · simp [hxL]
    · rw [dlook_eraseKey, dlook_eraseKey]

theorem mergeBinFiles_ok (g : Game) (mode : String) (fails : String → Bool)
    (exec : MergeExec) (s : UnitFS) (hrc : exec.rc = 0) :
    mergeBinFiles g mode fails exec s =
      (if mode = "1" then
         (if (deleteStaged fails (stagedFiles g) ((s.orig).getD [])).2 then
            rmdirIfEmpty ⟨writeAll s.work exec.out,
              some (deleteStaged fails (stagedFiles g) ((s.orig).getD [])).1⟩
          else ⟨writeAll s.work exec.out,
              some (deleteStaged fails (stagedFiles g) ((s.orig).getD [])).1⟩,
          true)
       else (⟨writeAll s.work exec.out, s.orig⟩, true)) := by
  have hnot : ¬ exec.rc ≠ 0 := by simp [hrc]
  simp only [mergeBinFiles, if_neg hnot]

theorem processUnit_staged_out (g : Game) (mode : String) (fails : String → Bool)
    (exec : MergeExec) (s : UnitFS) (s1 : UnitFS)
    (hconf : ∀ f ∈ stagedFiles g, dlook ((s.orig).getD []) f = none)
    (hok : stageFiles (stagedFiles g) ⟨s.work, some ((s.orig).getD [])⟩
        = Except.ok s1) :
    (processUnit g mode fails exec s).2
        = UnitOutcome.merged (mergeBinFiles g mode fails exec s1).2
    ∧ (processUnit g mode fails exec s).1 = (mergeBinFiles g mode fails exec s1).1 := by
  rw [processUnit_staged g mode fails exec s s1 hconf hok]
  exact ⟨rfl, rfl⟩

theorem processUnit_failedMerge_char (g : Game) (mode : String) (fails : String → Bool)
    (exec : MergeExec) (s : UnitFS) (s1 : UnitFS)
    (hconf : ∀ f ∈ stagedFiles g, dlook ((s.orig).getD []) f = none)
    (hok : stageFiles (stagedFiles g) ⟨s.work, some ((s.orig).getD [])⟩
        = Except.ok s1)
    (hout : ∀ p ∈ exec.out, p.1 = g.name ++ ".bin" ∨ p.1 = g.name ++ ".cue")
    (hrc : exec.rc ≠ 0) :
    (processUnit g mode fails exec s).2 = UnitOutcome.merged false
    ∧ ∀ x, dlook (processUnit g mode fails exec s).1.work x =
        if x ∈ stagedFiles g then dlook s.work x
        else if x = g.name ++ ".cue" then none
        else if x = g.name ++ ".bin" then none
        else dlook (writeAll s1.work exec.out) x := by
  obtain ⟨cw, co, ⟨o', ho'⟩, cp, cnd⟩ := stageFiles_ok_char _ _ _ _ hok
  have hp' : ∀ f ∈ stagedFiles g, (dlook o' f).isSome = true := by
    intro f hm
    have hco := co f
    rw [ho', Option.getD_some, if_pos hm] at hco
    rw [hco]
    exact cp f hm
  have hwn : ∀ f ∈ stagedFiles g, dlook s1.work f = none := by
    intro f hm
    rw [cw f, if_pos hm]
  have hs1 : s1 = ⟨s1.work, some o'⟩ := by
    cases s1
    simp_all
  obtain ⟨h2, h1⟩ := processUnit_staged_out g mode fails exec s s1 hconf hok
  obtain ⟨hflag, hwork⟩ := mergeBinFiles_fail g mode fails exec s1.work o' cnd hp' hwn hout hrc
  constructor
  · rw [h2, hs1, hflag]
  · intro x
    rw [h1, hs1, hwork x]
    by_cases hxL : x ∈ stagedFiles g
    · rw [if_pos hxL, if_pos hxL]
      have hco := co x
      rw [ho', Option.getD_some, if_pos hxL] at hco
      exact hco
    · rw [if_neg hxL, if_neg hxL]

/-! ## The scan trace is read-only -/

theorem scanCueTrace_reads (dirPath cue : String) (bins : List String) :
    ∀ op ∈ scanCueTrace dirPath cue bins, op.isMutation = false := by
  intro op hop
  simp only [scanCueTrace, List.mem_cons, List.mem_map] at hop
  rcases hop with he | ⟨b, hb, he⟩ <;> subst he <;> rfl

theorem scanCues_reads (dirPath : String) (names : List String) (files : Dir)
    (cues : List String) :
    ∀ op ∈ (scanCues dirPath names files cues).2.2, op.isMutation = false := by
  induction cues with
  | nil => simp [scanCues]
  | cons c rest ih =>
    intro op hop
    simp only [scanCues, List.mem_append] at hop
    rcases hop with h | h
    · exact scanCueTrace_reads _ _ _ op h
    · exact ih op h

theorem scanEntry_reads (e : DirEntry) :
    ∀ op ∈ (scanEntry e).2.2, op.isMutation = false := by
  intro op hop
  simp only [scanEntry, List.mem_cons] at hop
  rcases hop with he | h
  · subst he
    rfl
  · exact scanCues_reads _ _ _ _ op h

theorem scanDirectories_reads (walk : List DirEntry) :
    ∀ op ∈ (scanDirectories walk).2.2, op.isMutation = false := by
  induction walk with
  | nil => simp [scanDirectories]
  | cons e rest ih =>
    intro op hop
    simp only [scanDirectories, List.mem_append] at hop
    rcases hop with h | h
    · exact scanEntry_reads e op h
    · exact ih op h

theorem foldl_id_of_reads {σ : Type} (sem : FsOp → σ → σ)
    (hsem : ∀ op t, op.isMutation = false → sem op t = t) :
    ∀ ops : List FsOp, (∀ op ∈ ops, op.isMutation = false) →
      ∀ s : σ, ops.foldl (fun t op => sem op t) s = s := by
  intro ops
  induction ops with
  | nil =>
    intro _ s
    rfl
  | cons op rest ih =>
    intro h s
    simp only [List.foldl_cons]
    rw [hsem op s (h op (List.mem_cons_self op rest))]
    exact ih (fun q hq => h q (List.mem_cons_of_mem op hq)) s

/-! ## Claim theorems -/

/-- C1 (counterexample): a unit whose staging subdirectory exists and is
non-empty — but holds no file named like one of the unit's own files — is
NOT skipped: the merge is invoked (outcome `merged true`) and the unit's
files are moved out of the working directory.  This refutes the claim that
any existing non-empty backup directory causes the unit to be skipped with
both directories unchanged. -/
theorem conflict_skip_cex :
    sNonConflict.orig = some [("zzz.txt", "j")]
    ∧ (processUnit gA "0" noFail execOk sNonConflict).2 = UnitOutcome.merged true
    ∧ dlook sNonConflict.work "b.bin" = some "B"
    ∧ dlook (processUnit gA "0" noFail execOk sNonConflict).1.work "b.bin" = none := by
  exact ⟨rfl, by decide, rfl, by decide⟩

/-- C1 (amended): a unit is skipped exactly when the staging subdirectory
already contains a file whose name clashes with one of the unit's own
files (a track file or the CUE sheet's basename); in that case the unit is
skipped entirely — no file is moved, no merge is invoked, and both the
working directory and the backup directory are left unchanged (the result
state is the input state). -/
theorem conflict_skip_on_name_clash (g : Game) (mode : String)
    (fails : String → Bool) (exec : MergeExec) (s : UnitFS)
    (h : ∃ f ∈ stagedFiles g, (dlook ((s.orig).getD []) f).isSome = true) :
    processUnit g mode fails exec s = (s, UnitOutcome.skippedConflict) := by
  obtain ⟨w, so⟩ := s
  obtain ⟨f, hfL, hfs⟩ := h
  cases so with
  | none => simp [dlook] at hfs
  | some o =>
    simp only [Option.getD_some] at hfs
    have hempty := conflicts_isEmpty_false_of_mem (stagedFiles g) o f hfL hfs
    simp only [processUnit, Option.getD_some, hempty]
    simp

/-- C1 (witness): a concrete unit whose backup directory already holds a
file named `a.bin` is skipped with its state returned unchanged. -/
theorem conflict_skip_on_name_clash_witness :
    processUnit gA "0" noFail execOk sConflict = (sConflict, UnitOutcome.skippedConflict) := by
  exact conflict_skip_on_name_clash gA "0" noFail execOk sConflict
    ⟨"a.bin", by decide, by decide⟩

/-- C2 (counterexample): a unit that is staged and then rolled back does
not always recover its pre-staging file set: here the working directory
also held an unreferenced file `g.bin` — the name of the merge output —
which the rollback deletes as a presumed partial output and never
restores. -/
theorem stage_rollback_cex :
    dlook sExtraBin.work "g.bin" = some "X"
    ∧ (processUnit gA "0" noFail execFail sExtraBin).2 = UnitOutcome.merged false
    ∧ dlook (processUnit gA "0" noFail execFail sExtraBin).1.work "g.bin" = none := by
  exact ⟨rfl, by decide, by decide⟩

/-- C2 (amended): for a unit that is staged (all of its files moved into
the conflict-free backup directory) and then rolled back after a failed
merge, provided the merge tool wrote only files named `<name>.bin` /
`<name>.cue` and the working directory held no unstaged file with either
of those names, the working directory afterwards holds exactly the files
it held before staging, with unchanged content. -/
theorem stage_rollback_restores_work (g : Game) (mode : String)
    (fails : String → Bool) (exec : MergeExec) (s : UnitFS) (s1 : UnitFS)
    (hconf : ∀ f ∈ stagedFiles g, dlook ((s.orig).getD []) f = none)
    (hok : stageFiles (stagedFiles g) ⟨s.work, some ((s.orig).getD [])⟩
        = Except.ok s1)
    (hout : ∀ p ∈ exec.out, p.1 = g.name ++ ".bin" ∨ p.1 = g.name ++ ".cue")
    (hclean : ∀ x, (x = g.name ++ ".bin" ∨ x = g.name ++ ".cue") →
        x ∉ stagedFiles g → dlook s.work x = none)
    (hrc : exec.rc ≠ 0) :
    ∀ x, dlook (processUnit g mode fails exec s).1.work x = dlook s.work x := by
  intro x
  obtain ⟨-, hwork⟩ := processUnit_failedMerge_char g mode fails exec s s1 hconf hok hout hrc
  rw [hwork x]
  by_cases hxL : x ∈ stagedFiles g
  · rw [if_pos hxL]
  · rw [if_neg hxL]
    by_cases hxc : x = g.name ++ ".cue"
    · rw [if_pos hxc]
      exact (hclean x (Or.inr hxc) hxL).symm
    · rw [if_neg hxc]
      by_cases hxb : x = g.name ++ ".bin"
      · rw [if_pos hxb]
        exact (hclean x (Or.inl hxb) hxL).symm
      · rw [if_neg hxb]
        rw [dlook_writeAll_not_key]
        · obtain ⟨cw, -, -, -, -⟩ := stageFiles_ok_char _ _ _ _ hok
          rw [cw x, if_neg hxL]
        · intro p hp
          rcases hout p hp with h1 | h1
          · rw [h1]
            exact fun he => hxb he.symm
          · rw [h1]
            exact fun he => hxc he.symm

/-- C2 (witness): after staging `gA` from a clean directory and a failed
merge that wrote nothing, the track `a.bin` is back in the working
directory with its original content. -/
theorem stage_rollback_restores_work_witness :
    dlook (processUnit gA "0" noFail execFail sClean).1.work "a.bin"
      = dlook sClean.work "a.bin" := by
  exact stage_rollback_restores_work gA "0" noFail execFail sClean sStaged
    (by decide) (by rfl) (by decide)
    (by
      intro x hx hnx
      rcases hx with h | h
      · subst h
        decide
      · subst h
        exact absurd (by decide) hnx)
    (by decide) "a.bin"

/-- C3 (counterexample): when the second staging move fails (`b.bin`
missing), the exception is raised after `a.bin` was already moved into the
backup directory, yet no rollback is performed: `process_games` catches
the exception, logs it and moves on, leaving `a.bin` staged and absent
from the working directory.  This refutes the claim that rollback is
performed for exceptions raised during staging. -/
theorem staging_exception_cex :
    (processUnit gA "0" noFail execFail sPartial).2 = UnitOutcome.stagingFailed
    ∧ dlook (((processUnit gA "0" noFail execFail sPartial).1.orig).getD []) "a.bin"
        = some "A"
    ∧ dlook (processUnit gA "0" noFail execFail sPartial).1.work "a.bin" = none := by
  exact ⟨by decide, by decide, by decide⟩

/-- C3 (amended): for a conflict-free unit, an exception raised by the
merge step after staging completed does trigger rollback — provided the
merge tool wrote only files named `<name>.bin` / `<name>.cue` (its
documented output contract), every staged file is moved back with its
original content; but an exception raised by the staging move sequence
itself is caught in `process_games` without any rollback: the unit ends in
exactly the state it had when the move failed, with the already-moved
files left in the backup directory. -/
theorem staging_vs_merge_exception (g : Game) (mode : String)
    (fails : String → Bool) (exec : MergeExec) (s : UnitFS)
    (hconf : ∀ f ∈ stagedFiles g, dlook ((s.orig).getD []) f = none) :
    (∀ sErr, stageFiles (stagedFiles g) ⟨s.work, some ((s.orig).getD [])⟩
        = Except.error sErr →
        processUnit g mode fails exec s = (sErr, UnitOutcome.stagingFailed))
    ∧ (∀ s1, stageFiles (stagedFiles g) ⟨s.work, some ((s.orig).getD [])⟩
        = Except.ok s1 →
        (∀ p ∈ exec.out, p.1 = g.name ++ ".bin" ∨ p.1 = g.name ++ ".cue") →
        exec.rc ≠ 0 →
        (processUnit g mode fails exec s).2 = UnitOutcome.merged false
        ∧ ∀ f ∈ stagedFiles g,
            dlook (processUnit g mode fails exec s).1.work f = dlook s.work f) := by
  constructor
  · intro sErr herr
    exact processUnit_stagingError g mode fails exec s sErr hconf herr
  · intro s1 hok hout hrc
    obtain ⟨hflag, hwork⟩ := processUnit_failedMerge_char g mode fails exec s s1 hconf hok hout hrc
    refine ⟨hflag, ?_⟩
    intro f hm
    rw [hwork f, if_pos hm]

/-- C3 (witness): at the concrete staging-failure input the theorem yields
the exact abandoned state: `a.bin` staged in the backup directory, nothing
restored. -/
theorem staging_vs_merge_exception_witness :
    processUnit gA "0" noFail execFail sPartial
      = (⟨[("g.cue", "C")], some [("a.bin", "A")]⟩, UnitOutcome.stagingFailed) := by
  exact (staging_vs_merge_exception gA "0" noFail execFail sPartial (by decide)).1
    ⟨[("g.cue", "C")], some [("a.bin", "A")]⟩ (by rfl)

/-- C4 (confirmed): for a staged, conflict-free unit whose merge
subprocess wrote only files named `<name>.bin` / `<name>.cue` (its
documented output contract), a zero exit code is classified as success; a
non-zero exit code is classified as failure and the unit ends rolled back
— any partial merge-output files `<name>.bin` / `<name>.cue` (other than
staged originals of those names) are removed from the working directory
and every staged original is moved back with its original content. -/
theorem merge_exit_classification (g : Game) (mode : String)
    (fails : String → Bool) (exec : MergeExec) (s : UnitFS) (s1 : UnitFS)
    (hconf : ∀ f ∈ stagedFiles g, dlook ((s.orig).getD []) f = none)
    (hok : stageFiles (stagedFiles g) ⟨s.work, some ((s.orig).getD [])⟩
        = Except.ok s1)
    (hout : ∀ p ∈ exec.out, p.1 = g.name ++ ".bin" ∨ p.1 = g.name ++ ".cue") :
    (exec.rc = 0 → (processUnit g mode fails exec s).2 = UnitOutcome.merged true)
    ∧ (exec.rc ≠ 0 →
        (processUnit g mode fails exec s).2 = UnitOutcome.merged false
        ∧ (∀ x, (x = g.name ++ ".bin" ∨ x = g.name ++ ".cue") →
            x ∉ stagedFiles g →
            dlook (processUnit g mode fails exec s).1.work x = none)
        ∧ (∀ f ∈ stagedFiles g,
            dlook (processUnit g mode fails exec s).1.work f = dlook s.work f)) := by
  constructor
  · intro hrc
    obtain ⟨h2, h1⟩ := processUnit_staged_out g mode fails exec s s1 hconf hok
    rw [h2, mergeBinFiles_ok g mode fails exec s1 hrc]
    by_cases hm : mode = "1"
    · rw [if_pos hm]
    · rw [if_neg hm]
  · intro hrc
    obtain ⟨hflag, hwork⟩ := processUnit_failedMerge_char g mode fails exec s s1 hconf hok hout hrc
    refine ⟨hflag, ?_, ?_⟩
    · intro x hx hnx
      rw [hwork x, if_neg hnx]
      by_cases hxc : x = g.name ++ ".cue"
      · rw [if_pos hxc]
      · rw [if_neg hxc]
        rcases hx with h | h
        · rw [if_pos h]
        · exact absurd h hxc
    · intro f hm
      rw [hwork f, if_pos hm]

/-- C4 (witness): a staged unit whose merge exits 1 ends with outcome
`merged false`. -/
theorem merge_exit_classification_witness :
    (processUnit gA "0" noFail execFail sClean).2 = UnitOutcome.merged false := by
  exact ((merge_exit_classification gA "0" noFail execFail sClean sStaged
    (by decide) (by rfl) (by decide)).2 (by decide)).1

/-- C5 (code-bug evidence): with every pre-scan precondition passing
(Python 3, binmerge available) and a scan that discovers no unit, the
process does not exit 0: `display_progress(0, 0)` raises
`ZeroDivisionError`, which escapes to the interpreter and the process
exits with status 1. -/
theorem empty_scan_exits_nonzero :
    mainRun 3 true true "0" "y" noFail (fun _ => execOk) (fun _ => sClean) [] = 1 := by
  rfl

/-- C6 (confirmed): for a CUE sheet whose N well-formed FILE entries all
reference tracks present in the sheet's directory, the scanner emits
exactly one Unit — with `binFiles` equal to the parsed track list (length
N, source order) — when N ≥ 2; emits no unit when N = 1; and emits no unit
while reporting a no-tracks error when N = 0. -/
theorem scanCue_classification (dirPath : String) (dirFiles : List String)
    (cue : String) (lines : List String)
    (h : ∀ b ∈ (cueParseAux lines).1, dirFiles.contains b = true) :
    (2 ≤ (cueParseAux lines).1.length →
        (scanCue dirPath dirFiles cue lines).1 =
          some { name := splitextBase cue, directory := dirPath,
                 cueFile := joinPath dirPath cue,
                 binCount := (cueParseAux lines).1.length,
                 binFiles := (cueParseAux lines).1 })
    ∧ ((cueParseAux lines).1.length = 1 → (scanCue dirPath dirFiles cue lines).1 = none)
    ∧ ((cueParseAux lines).1.length = 0 →
        (scanCue dirPath dirFiles cue lines).1 = none
        ∧ ScanEvent.noBinsFound (splitextBase cue) ∈ (scanCue dirPath dirFiles cue lines).2) := by
  have hnil : (cueParseAux lines).1.filter (fun b => !(dirFiles.contains b)) = [] := by
    rw [List.filter_eq_nil_iff]
    intro a ha
    simpa using h a ha
  have hmiss : ((cueParseAux lines).1.filter (fun b => !(dirFiles.contains b))).isEmpty
      = true := by
    rw [hnil]
    rfl
  refine ⟨?_, ?_, ?_⟩
  · intro hlen
    have hgt : (cueParseAux lines).1.length > 1 := hlen
    simp only [scanCue, hmiss, if_true, if_pos hgt]
  · intro hlen
    have hngt : ¬ (cueParseAux lines).1.length > 1 := by omega
    simp only [scanCue, hmiss, if_true, if_neg hngt, if_pos hlen]
  · intro hlen
    have hngt : ¬ (cueParseAux lines).1.length > 1 := by omega
    have hne1 : ¬ (cueParseAux lines).1.length = 1 := by omega
    simp only [scanCue, hmiss, if_true, if_neg hngt, if_neg hne1]
    exact ⟨trivial, by simp⟩

/-- C6 (witness): a sheet with two FILE entries whose tracks exist yields
exactly one unit with both tracks in source order. -/
theorem scanCue_classification_witness :
    (scanCue "/r" dirFilesTwo "track01.cue" cueLinesTwo).1 =
      some { name := "track01", directory := "/r", cueFile := "/r/track01.cue",
             binCount := 2, binFiles := ["t1.bin", "t2.bin"] } := by
  have h := (scanCue_classification "/r" dirFilesTwo "track01.cue" cueLinesTwo
    (by decide)).1 (by decide)
  rw [h]
  rfl

/-- C7 (counterexample): the parser does not implement the spec's
selection and extraction rule: on `FILES "x.bin" BINARY` (whose first
token is not `FILE`) and `FILE "abc` (which has no complete quoted
substring) the code extracts `["x.bin", "abc"]`, while the spec's rule
selects neither line. -/
theorem cueParse_spec_mismatch_cex :
    (cueParseAux cexLines).1 = ["x.bin", "abc"]
    ∧ cueParseSpec cexLines = []
    ∧ (cueParseAux cexLines).1 ≠ cueParseSpec cexLines := by
  exact ⟨by decide, by decide, by decide⟩

/-- C7 (amended): the parser selects exactly the lines whose
whitespace-stripped form begins case-insensitively with the prefix `FILE`
(not necessarily as a whole token); from each selected line containing at
least one double quote it extracts the text between the first quote and
the next quote or the end of the line, preserving source order and
duplicates; a selected line containing no double quote at all is reported
and skipped while parsing continues. -/
theorem cueParse_characterization (ls : List String) :
    (cueParseAux ls).1
        = ls.filterMap (fun l => if isFileLine l then pyExtractQuoted l else none)
    ∧ (cueParseAux ls).2
        = ls.filter (fun l => isFileLine l && (pyExtractQuoted l).isNone)
    ∧ ∀ l : String, pyExtractQuoted l =
        (if '"' ∈ l.toList then
          some (String.mk (((l.toList.dropWhile (fun c => c ≠ '"')).tail).takeWhile
            (fun c => c ≠ '"')))
        else none) := by
  exact ⟨(cueParseAux_eq ls).1, (cueParseAux_eq ls).2, pyExtractQuoted_eq⟩

/-- C8 (confirmed): after a successful merge the unit is reported as a
success whatever happens during commit-time cleanup; under the
delete-originals policy the staged files are removed from the backup
directory and the backup directory itself is removed exactly when it ends
up empty, a deletion failure leaves the unit a success with no rollback
(the working directory keeps the merged output), and under any other
policy the backup directory is left intact. -/
theorem commit_policy_behavior (g : Game) (mode : String) (fails : String → Bool)
    (exec : MergeExec) (s : UnitFS) (hrc : exec.rc = 0) :
    (mergeBinFiles g mode fails exec s).2 = true
    ∧ (mode ≠ "1" →
        (mergeBinFiles g mode fails exec s).1 = ⟨writeAll s.work exec.out, s.orig⟩)
    ∧ (mode = "1" →
        (mergeBinFiles g mode fails exec s).1.work = writeAll s.work exec.out
        ∧ ((deleteStaged fails (stagedFiles g) ((s.orig).getD [])).2 = true →
            (∀ f ∈ stagedFiles g,
              dlook (deleteStaged fails (stagedFiles g) ((s.orig).getD [])).1 f = none)
            ∧ (mergeBinFiles g mode fails exec s).1.orig =
                (if (deleteStaged fails (stagedFiles g) ((s.orig).getD [])).1 = []
                 then none
                 else some (deleteStaged fails (stagedFiles g) ((s.orig).getD [])).1))
        ∧ ((deleteStaged fails (stagedFiles g) ((s.orig).getD [])).2 = false →
            (mergeBinFiles g mode fails exec s).1.orig =
              some (deleteStaged fails (stagedFiles g) ((s.orig).getD [])).1)) := by
  rw [mergeBinFiles_ok g mode fails exec s hrc]
  by_cases hm : mode = "1"
  · rw [if_pos hm]
    refine ⟨rfl, fun hne => absurd hm hne, fun _ => ⟨?_, ?_, ?_⟩⟩
    · by_cases hd : (deleteStaged fails (stagedFiles g) ((s.orig).getD [])).2
      · rw [if_pos hd, rmdirIfEmpty_work]
      · rw [if_neg hd]
    · intro hdel
      refine ⟨deleteStaged_complete fails (stagedFiles g) ((s.orig).getD []) hdel, ?_⟩
      rw [if_pos hdel, rmdirIfEmpty_orig]
    · intro hdel
      have hnd : ¬ (deleteStaged fails (stagedFiles g) ((s.orig).getD [])).2 = true := by
        simp [hdel]
      rw [if_neg hnd]
  · rw [if_neg hm]
    exact ⟨rfl, fun _ => rfl, fun he => absurd he hm⟩

/-- C8 (witness): committing the staged concrete unit under the delete
policy reports success, and the backup directory ends up removed. -/
theorem commit_policy_behavior_witness :
    (mergeBinFiles gA "1" noFail execOk sStaged).2 = true := by
  exact (commit_policy_behavior gA "1" noFail execOk sStaged (by decide)).1

/-- C9 (confirmed): the scan emits only non-mutating filesystem operations
(directory listings, file opens for reading, existence checks), so under
any state semantics in which non-mutating operations leave the state
unchanged, replaying the scan's whole operation trace returns the initial
filesystem state: `scan_directories` never mutates the filesystem. -/
theorem scan_performs_no_mutation {σ : Type} (walk : List DirEntry)
    (sem : FsOp → σ → σ) (s : σ)
    (hsem : ∀ op t, op.isMutation = false → sem op t = t) :
    (∀ op ∈ (scanDirectories walk).2.2, op.isMutation = false)
    ∧ (scanDirectories walk).2.2.foldl (fun t op => sem op t) s = s := by
  exact ⟨scanDirectories_reads walk,
    foldl_id_of_reads sem hsem _ (scanDirectories_reads walk) s⟩

/-- C9 (witness): replaying the trace of a concrete one-directory scan
leaves a concrete state unchanged. -/
theorem scan_performs_no_mutation_witness :
    (scanDirectories walkEx).2.2.foldl (fun (t : Nat) _ => t) 0 = 0 := by
  exact (scan_performs_no_mutation walkEx (fun _ t => t) 0 (fun _ _ _ => rfl)).2

/-- C10 (confirmed): `process_games` applied to the empty unit list always
raises `ZeroDivisionError`: the initial `display_progress(0, total)` call
divides by `total = 0` before any unit is processed, so a run whose scan
finds nothing to merge does not complete the batch phase normally. -/
theorem processGames_empty_zero_division (mode : String) (fails : String → Bool)
    (execOf : Game → MergeExec) (stateOf : Game → UnitFS) :
    processGames mode fails execOf stateOf [] = Except.error PyErr.zeroDivisionError := by
  rfl

end MergeHelper
